import Mathlib

/-!
Verification of the HTTP server orchestration core (`src/evpp/http/http_server.cc`)
against its natural-language specification.

The embedding models `HTTPServer` state explicitly.  External collaborators
(`EventLoopThread`, `Service`, `EventLoopThreadPool`) are represented through
the flags and primitives the core consumes:
* an `EventLoopThread`'s running/stopped flags are fields of each listen-thread
  record;
* `Service::Listen(port)` succeeding or failing is an environment function
  `bindOK : Int → Bool`;
* `EventLoopThreadPool::Start(true)` succeeding is an environment boolean.

The busy-wait loops (`while (!IsRunning()) usleep(1);`) are embedded as
fuel-indexed polls returning `Option`: `none` means the loop has not exited
within the given number of iterations; since nothing in the model mutates the
state during the poll, `none` for every fuel bound models divergence.
-/

namespace Evpp

/-- One `ListenThread` record of `HTTPServer::listen_threads_`: an
`EventLoopThread` (represented by its running/stopped flags) paired with the
`Service` bound to it (represented by an identifier) and the port it listens
on. -/
structure ListenThread where
  h : Nat
  port : Int
  threadRunning : Bool
  threadStopped : Bool
deriving DecidableEq, Repr

/-- The `HTTPServer` state.  The `EventLoopThreadPool` member `tpool_` is
flattened into the fields `thread_num`, `next` (its rotation counter) and its
running/stopped flags; `isRoundRobin` is the load-balancing policy flag read by
`HTTPServer::IsRoundRobin()` (declared in the header, not under `src/`;
modelled from the spec: "a load-balancing policy flag (round-robin vs.
address-hash)").  `nextServiceId` is a modelling counter naming the `Service`
objects created so far. -/
structure HTTPServer where
  thread_num : Nat
  next : Nat
  tpoolRunning : Bool
  tpoolStopped : Bool
  isRoundRobin : Bool
  listen_threads : List ListenThread
  callbacks : List (String × Nat)
  default_callback : Nat
  nextServiceId : Nat
deriving DecidableEq, Repr

/-- A freshly constructed `HTTPServer(thread_num)` with a chosen policy flag:
no listen threads, pool not yet started, rotation counter as given. -/
def freshServer (thread_num : Nat) (rr : Bool) (ctr : Nat) : HTTPServer :=
  { thread_num := thread_num
    next := ctr
    tpoolRunning := false
    tpoolStopped := false
    isRoundRobin := rr
    listen_threads := []
    callbacks := []
    default_callback := 0
    nextServiceId := 0 }

/-- `HTTPServer::IsRunning` (http_server.cc:142-157): false if the listen
thread list is empty, false if the pool is not running, false if any listen
thread is not running, else true. -/
def IsRunning (st : HTTPServer) : Bool :=
  if st.listen_threads.isEmpty then false
  else if !st.tpoolRunning then false
  else st.listen_threads.all (·.threadRunning)

/-- Body of `HTTPServer::IsStopped` (http_server.cc:159-173) after its
assertions: the pool is stopped and every listen thread is stopped. -/
def IsStopped (st : HTTPServer) : Bool :=
  if !st.tpoolStopped then false
  else st.listen_threads.all (·.threadStopped)

/-- `HTTPServer::IsStopped` including its entry assertion
`assert(!listen_threads_.empty())`: `none` models the assertion firing. -/
def IsStoppedChecked (st : HTTPServer) : Option Bool :=
  if st.listen_threads.isEmpty then none
  else some (IsStopped st)

/-- Overwrite-or-insert into the `callbacks_` map (`callbacks_[uri] = cb`). -/
def mapInsert (m : List (String × Nat)) (k : String) (v : Nat) : List (String × Nat) :=
  match m with
  | [] => [(k, v)]
  | (k', v') :: rest => if k' = k then (k, v) :: rest else (k', v') :: mapInsert rest k v

/-- `HTTPServer::RegisterHandler` (http_server.cc:175-178): asserts
`!IsRunning()` (modelled as `none` when the assertion fires), then stores the
mapping. -/
def RegisterHandler (st : HTTPServer) (uri : String) (cb : Nat) : Option HTTPServer :=
  if IsRunning st then none
  else some { st with callbacks := mapInsert st.callbacks uri cb }

/-- `HTTPServer::RegisterDefaultHandler` (http_server.cc:180-183): asserts
`!IsRunning()` (modelled as `none` when the assertion fires), then stores the
fallback. -/
def RegisterDefaultHandler (st : HTTPServer) (cb : Nat) : Option HTTPServer :=
  if IsRunning st then none
  else some { st with default_callback := cb }

/-- `HTTPServer::StartListenThread` (http_server.cc:53-89).  A thread/loop
pair and a `Service` are created; `Service::Listen(port)` is the environment
function `bindOK`.  On bind failure the partially-created Service is stopped
and discarded and `false` is returned without touching the list.  On success
the thread is started in blocking mode (so it is running — the code asserts
`lt.t->IsRunning()`), the handlers are registered on the Service, and the
record is appended to `listen_threads_`. -/
def StartListenThread (bindOK : Int → Bool) (st : HTTPServer) (port : Int) :
    Bool × HTTPServer :=
  let h := st.nextServiceId
  if bindOK port then
    let lt : ListenThread :=
      { h := h, port := port, threadRunning := true, threadStopped := false }
    (true, { st with listen_threads := st.listen_threads ++ [lt], nextServiceId := h + 1 })
  else
    (false, { st with nextServiceId := h + 1 })

/-- The loop of `HTTPServer::Start(std::vector<int>)` (http_server.cc:40-44):
start a listen thread per port sequentially; the first failure returns `false`
at once, keeping the state accumulated so far. -/
def startPorts (bindOK : Int → Bool) (st : HTTPServer) : List Int → Bool × HTTPServer
  | [] => (true, st)
  | p :: ps =>
    let r := StartListenThread bindOK st p
    if r.1 then startPorts bindOK r.2 ps else (false, r.2)

/-- The busy-wait `while (!IsRunning()) usleep(1);`, fuel-indexed.  The state
is not mutated by the loop, so the poll either exits at once or never. -/
def pollIsRunning (st : HTTPServer) : Nat → Option Unit
  | 0 => none
  | fuel + 1 => if IsRunning st then some () else pollIsRunning st fuel

/-- `HTTPServer::Start(int port)` (http_server.cc:19-32): start the pool
(returning false on pool failure), start the one listen thread, then busy-wait
on `IsRunning()` before returning `rc`.  `none` models the call not having
returned within `fuel` poll iterations. -/
def StartSingle (bindOK : Int → Bool) (tpoolStartOK : Bool) (st : HTTPServer)
    (port : Int) (fuel : Nat) : Option Bool × HTTPServer :=
  if tpoolStartOK then
    let st1 := { st with tpoolRunning := true }
    let r := StartListenThread bindOK st1 port
    match pollIsRunning r.2 fuel with
    | none => (none, r.2)
    | some _ => (some r.1, r.2)
  else (some false, st)

/-- `HTTPServer::Start(std::vector<int>)` (http_server.cc:34-51): start the
pool (returning false on pool failure), start one listen thread per port (the
first failure returns false immediately, before the poll), then busy-wait on
`IsRunning()` before returning `true`.  `none` models the call not having
returned within `fuel` poll iterations. -/
def StartVector (bindOK : Int → Bool) (tpoolStartOK : Bool) (st : HTTPServer)
    (ports : List Int) (fuel : Nat) : Option Bool × HTTPServer :=
  if tpoolStartOK then
    let st1 := { st with tpoolRunning := true }
    let r := startPorts bindOK st1 ports
    if r.1 then
      match pollIsRunning r.2 fuel with
      | none => (none, r.2)
      | some _ => (some true, r.2)
    else (some false, r.2)
  else (some false, st)

/-- The loop a request is handed to: either the acceptor's own
(`default_loop`) or a worker-pool loop named by its index. -/
inductive LoopRef where
  | defaultLoop : LoopRef
  | pool (i : Nat) : LoopRef
deriving DecidableEq, Repr

/-- A request context as read by `GetNextLoop`: the connection's raw IPv4
address (`sockaddr_in::sin_addr.s_addr`) when
`evhttp_connection_get_addr` yields a socket address, and the textual remote
address `ctx->remote_ip`. -/
structure Context where
  rawAddr : Option Nat
  remote_ip : String
deriving DecidableEq, Repr

/-- Modelled from the spec: `EventLoopThreadPool::GetNextLoop` is not under
`src/`; §4.3 says "return the Worker Pool's next loop in rotation (a simple
cyclic counter over the pool)".  Returns the selected pool index and the state
with the counter advanced. -/
def tpoolGetNextLoop (st : HTTPServer) : Nat × HTTPServer :=
  (st.next % st.thread_num, { st with next := st.next + 1 })

/-- Modelled from the spec: `EventLoopThreadPool::GetNextLoopWithHash` is not
under `src/`; §4.3 says "select the worker loop via hash mod pool_size". -/
def tpoolGetNextLoopWithHash (st : HTTPServer) (hash : Nat) : Nat :=
  hash % st.thread_num

/-- `HTTPServer::GetNextLoop` (http_server.cc:210-228).  `hashStr` stands for
`std::hash<std::string>` (an arbitrary but fixed function).  With zero pool
threads the originating loop is returned; under round-robin the pool's
rotation is used (advancing the counter); otherwise the raw IPv4 address, or
the string hash of `remote_ip` when no socket address is available, is fed to
the hash selection. -/
def GetNextLoop (hashStr : String → Nat) (st : HTTPServer) (default_loop : LoopRef)
    (ctx : Context) : LoopRef × HTTPServer :=
  if st.thread_num = 0 then (default_loop, st)
  else if st.isRoundRobin then
    let r := tpoolGetNextLoop st
    (LoopRef.pool r.1, r.2)
  else
    match ctx.rawAddr with
    | some a => (LoopRef.pool (tpoolGetNextLoopWithHash st a), st)
    | none => (LoopRef.pool (tpoolGetNextLoopWithHash st (hashStr ctx.remote_ip)), st)

/-- The hash key `GetNextLoop` uses under the hash-affinity policy: the raw
IPv4 address when the socket address is available, else the string hash of the
textual remote address. -/
def ctxKey (hashStr : String → Nat) (ctx : Context) : Nat :=
  match ctx.rawAddr with
  | some a => a
  | none => hashStr ctx.remote_ip

/-- Outcome of `HTTPServer::service(int index)`: a Service pointer, `NULL`, or
an out-of-bounds `std::vector` access (undefined behavior). -/
inductive ServiceResult where
  | svc (h : Nat) : ServiceResult
  | null : ServiceResult
  | undef : ServiceResult
deriving DecidableEq, Repr

/-- `HTTPServer::service` (http_server.cc:230-236): if `index <
int(listen_threads_.size())` return `listen_threads_[index].h.get()` — an
out-of-bounds access when `index` is negative — else return `NULL`. -/
def service (st : HTTPServer) (index : Int) : ServiceResult :=
  if index < (st.listen_threads.length : Int) then
    if hidx : 0 ≤ index ∧ index.toNat < st.listen_threads.length then
      ServiceResult.svc (st.listen_threads.get ⟨index.toNat, hidx.2⟩).h
    else ServiceResult.undef
  else ServiceResult.null

/-- One step of repeated loop selection: the server state after one
`GetNextLoop` call (only the round-robin branch mutates it, by advancing the
rotation counter). -/
def selStep (hashStr : String → Nat) (dl : LoopRef) (ctx : Context)
    (st : HTTPServer) : HTTPServer :=
  (GetNextLoop hashStr st dl ctx).2

/-- The loop returned by the `(k+1)`-th of a sequence of `GetNextLoop` calls
(0-indexed `k`), each call operating on the state the previous one left. -/
def selNth (hashStr : String → Nat) (dl : LoopRef) (ctx : Context)
    (st : HTTPServer) (k : Nat) : LoopRef :=
  (GetNextLoop hashStr ((selStep hashStr dl ctx)^[k] st) dl ctx).1

/-- A sample request context used by concrete witnesses. -/
def sampleCtx : Context := { rawAddr := some 7, remote_ip := "10.0.0.1" }

/-- A sample listen-thread record used by concrete witnesses. -/
def sampleLT : ListenThread :=
  { h := 5, port := 80, threadRunning := true, threadStopped := false }

/-- A sample running server with one acceptor, used by concrete witnesses. -/
def sampleServer : HTTPServer :=
  { freshServer 3 false 0 with listen_threads := [sampleLT], tpoolRunning := true }

/-! ## Claims -/

/-- C6: whenever the worker pool has zero configured worker loops,
`GetNextLoop(default_loop, ctx)` returns the originating loop for every
context, regardless of the load-balancing policy (which is part of `st`). -/
theorem zero_workers_default_loop (hashStr : String → Nat) (st : HTTPServer)
    (dl : LoopRef) (ctx : Context) (h : st.thread_num = 0) :
    (GetNextLoop hashStr st dl ctx).1 = dl := by
  simp [GetNextLoop, h]

/-- Witness for C6 at a concrete zero-worker server. -/
theorem zero_workers_default_loop_witness :
    (freshServer 0 true 0).thread_num = 0 ∧
      (GetNextLoop String.length (freshServer 0 true 0) LoopRef.defaultLoop
        { rawAddr := some 7, remote_ip := "10.0.0.1" }).1 = LoopRef.defaultLoop :=
  ⟨rfl, zero_workers_default_loop String.length (freshServer 0 true 0)
    LoopRef.defaultLoop { rawAddr := some 7, remote_ip := "10.0.0.1" } rfl⟩

/-- C7: `IsRunning()` is true exactly when the acceptor list is non-empty, the
pool reports running, and every listen thread reports running; in particular
it is false whenever the acceptor list is empty. -/
theorem isRunning_iff (st : HTTPServer) :
    (IsRunning st = true ↔
      st.listen_threads ≠ [] ∧ st.tpoolRunning = true ∧
        ∀ lt ∈ st.listen_threads, lt.threadRunning = true) ∧
    (st.listen_threads = [] → IsRunning st = false) := by
  constructor
  · simp only [IsRunning, List.isEmpty_iff, List.all_eq_true]
    by_cases hemp : st.listen_threads = []
    · simp [hemp]
    · by_cases hp : st.tpoolRunning
      · simp [hemp, hp]
      · simp [hemp, hp]
  · intro hemp
    simp [IsRunning, hemp]

/-- C8: registering a handler (plain or default) while the server is running,
and querying `IsStopped` while the acceptor list is empty, each fire their
assertion (`none`); under the complementary preconditions the assertions
cannot fire (the iff direction gives `isSome`). -/
theorem precondition_assertions (st : HTTPServer) (uri : String) (cb dcb : Nat) :
    (RegisterHandler st uri cb = none ↔ IsRunning st = true) ∧
    (RegisterDefaultHandler st dcb = none ↔ IsRunning st = true) ∧
    (IsStoppedChecked st = none ↔ st.listen_threads = []) := by
  refine ⟨?_, ?_, ?_⟩
  · by_cases h : IsRunning st <;> simp [RegisterHandler, h]
  · by_cases h : IsRunning st <;> simp [RegisterDefaultHandler, h]
  · by_cases h : st.listen_threads.isEmpty <;>
      simp [IsStoppedChecked, h, List.isEmpty_iff] <;>
      simp [List.isEmpty_iff] at h <;> exact h

/-- C9 counterexample: at index `-1` no acceptor record exists, yet `service`
performs an out-of-bounds vector access instead of returning `NULL` (the
negativity of the index is not checked). -/
theorem service_negative_index_cex :
    service (freshServer 2 true 0) (-1) = ServiceResult.undef ∧
    service (freshServer 2 true 0) (-1) ≠ ServiceResult.null := by
  decide

/-- C9 amended: for every non-negative index `i`, `service i` returns the
Service of the `i`-th acceptor record when one exists and `NULL` when the
index is past the end, without any out-of-bounds access. -/
theorem service_nonneg_index (st : HTTPServer) (i : Int) (hi : 0 ≤ i) :
    (∀ hlt : i.toNat < st.listen_threads.length,
        service st i = ServiceResult.svc (st.listen_threads.get ⟨i.toNat, hlt⟩).h) ∧
    ((st.listen_threads.length : Int) ≤ i → service st i = ServiceResult.null) := by
  constructor
  · intro hlt
    have h1 : i < (st.listen_threads.length : Int) := by omega
    rw [service, if_pos h1, dif_pos ⟨hi, hlt⟩]
  · intro hge
    have h1 : ¬ i < (st.listen_threads.length : Int) := by omega
    rw [service, if_neg h1]

/-- Witness for C9's amended theorem on a concrete one-acceptor server: index
0 yields the record's Service, index 1 yields `NULL`. -/
theorem service_nonneg_index_witness :
    ((0 : Int) ≤ 0 ∧ (sampleServer.listen_threads.length : Int) ≤ 1) ∧
    service sampleServer 0 = ServiceResult.svc 5 ∧
    service sampleServer 1 = ServiceResult.null := by
  refine ⟨by decide, ?_, ?_⟩
  · have h := (service_nonneg_index sampleServer 0 (by decide)).1
    exact h (by decide)
  · exact (service_nonneg_index sampleServer 1 (by decide)).2 (by decide)

/-- Under round-robin with a non-empty pool, one selection step only advances
the rotation counter. -/
theorem selStep_rr (hashStr : String → Nat) (dl : LoopRef) (ctx : Context)
    (st : HTTPServer) (h0 : st.thread_num ≠ 0) (hrr : st.isRoundRobin = true) :
    selStep hashStr dl ctx st = { st with next := st.next + 1 } := by
  simp [selStep, GetNextLoop, tpoolGetNextLoop, h0, hrr]

/-- Under round-robin with a non-empty pool, `k` selection steps advance the
rotation counter by `k`. -/
theorem selStep_rr_iterate (hashStr : String → Nat) (dl : LoopRef) (ctx : Context)
    (st : HTTPServer) (h0 : st.thread_num ≠ 0) (hrr : st.isRoundRobin = true)
    (k : Nat) :
    (selStep hashStr dl ctx)^[k] st = { st with next := st.next + k } := by
  induction k generalizing st with
  | zero => rfl
  | succ n ih =>
    rw [Function.iterate_succ_apply, selStep_rr hashStr dl ctx st h0 hrr, ih]
    · simp [Nat.add_assoc, Nat.add_comm 1 n]
    · exact h0
    · exact hrr

/-- Under round-robin with a non-empty pool, the `k`-th selected loop is the
pool loop at index `(counter + k) mod pool size`. -/
theorem selNth_rr (hashStr : String → Nat) (dl : LoopRef) (ctx : Context)
    (st : HTTPServer) (h0 : st.thread_num ≠ 0) (hrr : st.isRoundRobin = true)
    (k : Nat) :
    selNth hashStr dl ctx st k = LoopRef.pool ((st.next + k) % st.thread_num) := by
  rw [selNth, selStep_rr_iterate hashStr dl ctx st h0 hrr k]
  simp [GetNextLoop, tpoolGetNextLoop, h0, hrr]

/-- C4: under round-robin with pool size `P ≥ 1`, the `k`-th selection is the
pool loop at index `(counter + k) mod P` (the fixed rotation order); within
any window of `P` consecutive selections no loop repeats and every pool loop
occurs; and the `(P+1)`-th selection equals the first. -/
theorem round_robin_rotation (hashStr : String → Nat) (dl : LoopRef)
    (ctx : Context) (st : HTTPServer) (P : Nat) (hP : st.thread_num = P)
    (h1 : 1 ≤ P) (hrr : st.isRoundRobin = true) :
    (∀ k, selNth hashStr dl ctx st k = LoopRef.pool ((st.next + k) % P)) ∧
    (∀ i j, i < P → j < P →
        selNth hashStr dl ctx st i = selNth hashStr dl ctx st j → i = j) ∧
    (∀ l, l < P → ∃ k, k < P ∧ selNth hashStr dl ctx st k = LoopRef.pool l) ∧
    selNth hashStr dl ctx st P = selNth hashStr dl ctx st 0 := by
  have h0 : st.thread_num ≠ 0 := by omega
  have hsel : ∀ k, selNth hashStr dl ctx st k
      = LoopRef.pool ((st.next + k) % P) := by
    intro k
    rw [selNth_rr hashStr dl ctx st h0 hrr k, hP]
  refine ⟨hsel, ?_, ?_, ?_⟩
  · intro i j hiP hjP heq
    rw [hsel i, hsel j] at heq
    have hmod : (st.next + i) % P = (st.next + j) % P := by
      injection heq
    have hij : i ≡ j [MOD P] := Nat.ModEq.add_left_cancel' st.next hmod
    have := hij.eq_of_lt_of_lt hiP hjP
    exact this
  · intro l hl
    have hcP : st.next % P < P := Nat.mod_lt _ (by omega)
    rcases le_or_lt (st.next % P) l with hle | hlt
    · refine ⟨l - st.next % P, by omega, ?_⟩
      rw [hsel]
      have hk : (l - st.next % P) % P = l - st.next % P :=
        Nat.mod_eq_of_lt (by omega)
      rw [Nat.add_mod, hk]
      have hsum : st.next % P + (l - st.next % P) = l := by omega
      rw [hsum, Nat.mod_eq_of_lt hl]
    · refine ⟨P + l - st.next % P, by omega, ?_⟩
      rw [hsel]
      have hk : (P + l - st.next % P) % P = P + l - st.next % P :=
        Nat.mod_eq_of_lt (by omega)
      rw [Nat.add_mod, hk]
      have hsum : st.next % P + (P + l - st.next % P) = P + l := by omega
      rw [hsum, Nat.add_mod_left, Nat.mod_eq_of_lt hl]
  · rw [hsel P, hsel 0, Nat.add_mod_right, Nat.add_zero]

/-- Witness for C4 on a pool of size 3 with counter 5: the rotation formula,
window-injectivity, window-surjectivity and period-3 recurrence hold there. -/
theorem round_robin_rotation_witness :
    ((freshServer 3 true 5).thread_num = 3 ∧ 1 ≤ 3 ∧
      (freshServer 3 true 5).isRoundRobin = true) ∧
    ((∀ k, selNth String.length LoopRef.defaultLoop sampleCtx (freshServer 3 true 5) k
        = LoopRef.pool (((freshServer 3 true 5).next + k) % 3)) ∧
     (∀ i j, i < 3 → j < 3 →
        selNth String.length LoopRef.defaultLoop sampleCtx (freshServer 3 true 5) i
          = selNth String.length LoopRef.defaultLoop sampleCtx (freshServer 3 true 5) j →
        i = j) ∧
     (∀ l, l < 3 → ∃ k, k < 3 ∧
        selNth String.length LoopRef.defaultLoop sampleCtx (freshServer 3 true 5) k
          = LoopRef.pool l) ∧
     selNth String.length LoopRef.defaultLoop sampleCtx (freshServer 3 true 5) 3
       = selNth String.length LoopRef.defaultLoop sampleCtx (freshServer 3 true 5) 0) :=
  ⟨⟨rfl, by decide, rfl⟩,
    round_robin_rotation String.length LoopRef.defaultLoop sampleCtx
      (freshServer 3 true 5) 3 rfl (by decide) rfl⟩

/-- Under the hash-affinity policy with a non-empty pool, `GetNextLoop`
returns the pool loop at index `key mod pool size` and leaves the state
unchanged. -/
theorem getNextLoop_hash (hashStr : String → Nat) (st : HTTPServer)
    (dl : LoopRef) (ctx : Context) (hrr : st.isRoundRobin = false)
    (h0 : st.thread_num ≠ 0) :
    GetNextLoop hashStr st dl ctx
      = (LoopRef.pool (ctxKey hashStr ctx % st.thread_num), st) := by
  cases hctx : ctx.rawAddr <;>
    simp [GetNextLoop, ctxKey, tpoolGetNextLoopWithHash, hrr, h0, hctx]

/-- C5: under the hash-affinity policy with pool size ≥ 1, the selected loop
is the pool loop at index `key mod pool size`, where the key is the raw IPv4
address when present and the string hash of the textual remote address
otherwise; the call leaves the server state unchanged, so repeated calls
agree, and any two contexts with equal keys select the same loop. -/
theorem hash_affinity_deterministic (hashStr : String → Nat) (st : HTTPServer)
    (dl : LoopRef) (ctx1 ctx2 : Context) (hrr : st.isRoundRobin = false)
    (h1 : 1 ≤ st.thread_num) :
    (GetNextLoop hashStr st dl ctx1).1
        = LoopRef.pool (ctxKey hashStr ctx1 % st.thread_num) ∧
    (GetNextLoop hashStr st dl ctx1).2 = st ∧
    (ctxKey hashStr ctx1 = ctxKey hashStr ctx2 →
      (GetNextLoop hashStr st dl ctx1).1 = (GetNextLoop hashStr st dl ctx2).1) := by
  have h0 : st.thread_num ≠ 0 := by omega
  rw [getNextLoop_hash hashStr st dl ctx1 hrr h0,
    getNextLoop_hash hashStr st dl ctx2 hrr h0]
  refine ⟨rfl, rfl, ?_⟩
  intro hkey
  rw [hkey]

/-- Witness for C5 on a pool of size 3: a context carrying raw address 2 and a
context whose textual address hashes (via `String.length`) to 2 share the key
and select the same worker loop, pool loop 2. -/
theorem hash_affinity_deterministic_witness :
    ((freshServer 3 false 2).isRoundRobin = false ∧
      1 ≤ (freshServer 3 false 2).thread_num ∧
      ctxKey String.length { rawAddr := some 2, remote_ip := "9.9.9.9" }
        = ctxKey String.length { rawAddr := none, remote_ip := "ab" }) ∧
    ((GetNextLoop String.length (freshServer 3 false 2) LoopRef.defaultLoop
        { rawAddr := some 2, remote_ip := "9.9.9.9" }).1
      = LoopRef.pool (ctxKey String.length
          { rawAddr := some 2, remote_ip := "9.9.9.9" } % (freshServer 3 false 2).thread_num) ∧
     (GetNextLoop String.length (freshServer 3 false 2) LoopRef.defaultLoop
        { rawAddr := some 2, remote_ip := "9.9.9.9" }).2 = freshServer 3 false 2 ∧
     (ctxKey String.length { rawAddr := some 2, remote_ip := "9.9.9.9" }
        = ctxKey String.length { rawAddr := none, remote_ip := "ab" } →
      (GetNextLoop String.length (freshServer 3 false 2) LoopRef.defaultLoop
          { rawAddr := some 2, remote_ip := "9.9.9.9" }).1
        = (GetNextLoop String.length (freshServer 3 false 2) LoopRef.defaultLoop
            { rawAddr := none, remote_ip := "ab" }).1)) :=
  ⟨⟨rfl, by decide, by decide⟩,
    hash_affinity_deterministic String.length (freshServer 3 false 2)
      LoopRef.defaultLoop { rawAddr := some 2, remote_ip := "9.9.9.9" }
      { rawAddr := none, remote_ip := "ab" } rfl (by decide)⟩

/-- The busy-wait exits at once (given any fuel) when `IsRunning` holds:
no step of the loop changes the state. -/
theorem pollIsRunning_of_isRunning (st : HTTPServer) (h : IsRunning st = true)
    (fuel : Nat) (hf : 1 ≤ fuel) : pollIsRunning st fuel = some () := by
  cases fuel with
  | zero => omega
  | succ n => simp [pollIsRunning, h]

/-- The busy-wait never exits when `IsRunning` is false: no step of the loop
changes the state, so no fuel bound suffices. -/
theorem pollIsRunning_of_not_running (st : HTTPServer) (h : IsRunning st = false)
    (fuel : Nat) : pollIsRunning st fuel = none := by
  induction fuel with
  | zero => rfl
  | succ n ih => simp [pollIsRunning, h, ih]

/-- When every port binds, the sequential listener loop succeeds, appends one
record per port in list order, keeps the pool flag, and every record it adds
is running. -/
theorem startPorts_all_ok (bindOK : Int → Bool) (st : HTTPServer)
    (ports : List Int) (h : ∀ p ∈ ports, bindOK p = true) :
    (startPorts bindOK st ports).1 = true ∧
    (startPorts bindOK st ports).2.listen_threads.map (·.port)
      = st.listen_threads.map (·.port) ++ ports ∧
    (startPorts bindOK st ports).2.tpoolRunning = st.tpoolRunning ∧
    (∀ lt ∈ (startPorts bindOK st ports).2.listen_threads,
        lt ∈ st.listen_threads ∨ lt.threadRunning = true) := by
  induction ports generalizing st with
  | nil =>
    exact ⟨rfl, by simp [startPorts], rfl, fun lt hlt => Or.inl hlt⟩
  | cons p ps ih =>
    have hp : bindOK p = true := h p (List.mem_cons_self p ps)
    have hps : ∀ q ∈ ps, bindOK q = true :=
      fun q hq => h q (List.mem_cons_of_mem p hq)
    obtain ⟨ih1, ih2, ih3, ih4⟩ := ih
      { st with
          listen_threads := st.listen_threads ++
            [{ h := st.nextServiceId, port := p, threadRunning := true,
               threadStopped := false }]
          nextServiceId := st.nextServiceId + 1 } hps
    refine ⟨?_, ?_, ?_, ?_⟩
    · simpa [startPorts, StartListenThread, hp] using ih1
    · rw [show startPorts bindOK st (p :: ps)
          = startPorts bindOK
              { st with
                  listen_threads := st.listen_threads ++
                    [{ h := st.nextServiceId, port := p, threadRunning := true,
                       threadStopped := false }]
                  nextServiceId := st.nextServiceId + 1 } ps by
        simp [startPorts, StartListenThread, hp]]
      rw [ih2]
      simp
    · rw [show startPorts bindOK st (p :: ps)
          = startPorts bindOK
              { st with
                  listen_threads := st.listen_threads ++
                    [{ h := st.nextServiceId, port := p, threadRunning := true,
                       threadStopped := false }]
                  nextServiceId := st.nextServiceId + 1 } ps by
        simp [startPorts, StartListenThread, hp]]
      rw [ih3]
    · intro lt hlt
      rw [show startPorts bindOK st (p :: ps)
          = startPorts bindOK
              { st with
                  listen_threads := st.listen_threads ++
                    [{ h := st.nextServiceId, port := p, threadRunning := true,
                       threadStopped := false }]
                  nextServiceId := st.nextServiceId + 1 } ps by
        simp [startPorts, StartListenThread, hp]] at hlt
      rcases ih4 lt hlt with hmem | hrun
      · rcases List.mem_append.1 hmem with hmem' | hnew
        · exact Or.inl hmem'
        · right
          rcases List.mem_singleton.1 hnew with rfl
          rfl
      · exact Or.inr hrun

/-- When every port of a prefix binds and the next port fails to bind, the
sequential listener loop returns `false`, having appended exactly one running
record per prefix port, in order; the pool flag is untouched and no record for
the failing port or the remaining ports exists. -/
theorem startPorts_fail (bindOK : Int → Bool) (st : HTTPServer)
    (good : List Int) (bad : Int) (rest : List Int)
    (hg : ∀ p ∈ good, bindOK p = true) (hb : bindOK bad = false) :
    (startPorts bindOK st (good ++ bad :: rest)).1 = false ∧
    (startPorts bindOK st (good ++ bad :: rest)).2.listen_threads.map (·.port)
      = st.listen_threads.map (·.port) ++ good ∧
    (startPorts bindOK st (good ++ bad :: rest)).2.tpoolRunning = st.tpoolRunning ∧
    (∀ lt ∈ (startPorts bindOK st (good ++ bad :: rest)).2.listen_threads,
        lt ∈ st.listen_threads ∨ lt.threadRunning = true) := by
  induction good generalizing st with
  | nil =>
    refine ⟨?_, ?_, ?_, ?_⟩ <;>
      simp [startPorts, StartListenThread, hb]
    exact fun lt hlt => Or.inl hlt
  | cons p ps ih =>
    have hp : bindOK p = true := hg p (List.mem_cons_self p ps)
    have hps : ∀ q ∈ ps, bindOK q = true :=
      fun q hq => hg q (List.mem_cons_of_mem p hq)
    obtain ⟨ih1, ih2, ih3, ih4⟩ := ih
      { st with
          listen_threads := st.listen_threads ++
            [{ h := st.nextServiceId, port := p, threadRunning := true,
               threadStopped := false }]
          nextServiceId := st.nextServiceId + 1 } hps
    have hstep : startPorts bindOK st ((p :: ps) ++ bad :: rest)
        = startPorts bindOK
            { st with
                listen_threads := st.listen_threads ++
                  [{ h := st.nextServiceId, port := p, threadRunning := true,
                     threadStopped := false }]
                nextServiceId := st.nextServiceId + 1 } (ps ++ bad :: rest) := by
      simp [startPorts, StartListenThread, hp]
    refine ⟨by rw [hstep]; exact ih1, ?_, by rw [hstep]; exact ih3, ?_⟩
    · rw [hstep, ih2]
      simp
    · intro lt hlt
      rw [hstep] at hlt
      rcases ih4 lt hlt with hmem | hrun
      · rcases List.mem_append.1 hmem with hmem' | hnew
        · exact Or.inl hmem'
        · right
          rcases List.mem_singleton.1 hnew with rfl
          rfl
      · exact Or.inr hrun

/-- C1 (divergence): when the single listener fails to bind (with the pool
having started), `Start(port)` never returns: the acceptor list stays empty,
so the `while (!IsRunning())` poll never exits, for every fuel bound — the
documented `false` return is never reached. -/
theorem start_single_port_failure_hangs (bindOK : Int → Bool) (tn : Nat)
    (rr : Bool) (ctr : Nat) (port : Int) (fuel : Nat)
    (hb : bindOK port = false) :
    (StartSingle bindOK true (freshServer tn rr ctr) port fuel).1 = none := by
  simp [StartSingle, StartListenThread, hb, freshServer,
    pollIsRunning_of_not_running, IsRunning]

/-- Witness for C1's divergence theorem: a concrete always-failing bind at
port 80 with fuel 7 yields no return value. -/
theorem start_single_port_failure_hangs_witness :
    ((fun _ : Int => false) 80 = false) ∧
    (StartSingle (fun _ => false) true (freshServer 2 true 0) 80 7).1 = none :=
  ⟨rfl, start_single_port_failure_hangs (fun _ => false) 2 true 0 80 7 rfl⟩

/-- C2: when the ports list is a good prefix, then a failing port, then a
rest, `Start(ports)` on a fresh server (pool starting fine) returns `false`
(before any polling, for every fuel); the acceptor list holds exactly one
running record per good-prefix port, in order, and no record for the failing
port or any later position. -/
theorem start_vector_partial_failure (bindOK : Int → Bool) (tn : Nat)
    (rr : Bool) (ctr : Nat) (good : List Int) (bad : Int) (rest : List Int)
    (fuel : Nat) (hg : ∀ p ∈ good, bindOK p = true) (hb : bindOK bad = false) :
    (StartVector bindOK true (freshServer tn rr ctr) (good ++ bad :: rest) fuel).1
      = some false ∧
    (StartVector bindOK true (freshServer tn rr ctr) (good ++ bad :: rest)
        fuel).2.listen_threads.map (·.port) = good ∧
    (StartVector bindOK true (freshServer tn rr ctr) (good ++ bad :: rest)
        fuel).2.listen_threads.length = good.length ∧
    (∀ lt ∈ (StartVector bindOK true (freshServer tn rr ctr)
        (good ++ bad :: rest) fuel).2.listen_threads,
      lt.threadRunning = true) := by
  obtain ⟨h1, h2, h3, h4⟩ := startPorts_fail bindOK
    { freshServer tn rr ctr with tpoolRunning := true } good bad rest hg hb
  have hred : StartVector bindOK true (freshServer tn rr ctr)
      (good ++ bad :: rest) fuel
      = (some false,
          (startPorts bindOK { freshServer tn rr ctr with tpoolRunning := true }
            (good ++ bad :: rest)).2) := by
    simp [StartVector, h1]
  have h2' : (startPorts bindOK
      { freshServer tn rr ctr with tpoolRunning := true }
      (good ++ bad :: rest)).2.listen_threads.map (·.port) = good := by
    simpa [freshServer] using h2
  refine ⟨by rw [hred], by rw [hred]; exact h2', ?_, ?_⟩
  · rw [hred]
    have := congrArg List.length h2'
    simpa using this
  · intro lt hlt
    rw [hred] at hlt
    rcases h4 lt hlt with hmem | hrun
    · simp [freshServer] at hmem
    · exact hrun

/-- Witness for C2: binding fails only at port 2; starting `[1, 2, 3]` returns
`some false` with exactly the one record for port 1, which is running. -/
theorem start_vector_partial_failure_witness :
    ((∀ p ∈ ([1] : List Int), (p != 2) = true) ∧ ((2 : Int) != 2) = false) ∧
    ((StartVector (· != 2) true (freshServer 2 true 0) ([1] ++ 2 :: [3]) 5).1
        = some false ∧
     (StartVector (· != 2) true (freshServer 2 true 0)
        ([1] ++ 2 :: [3]) 5).2.listen_threads.map (·.port) = [1] ∧
     (StartVector (· != 2) true (freshServer 2 true 0)
        ([1] ++ 2 :: [3]) 5).2.listen_threads.length = ([1] : List Int).length ∧
     (∀ lt ∈ (StartVector (· != 2) true (freshServer 2 true 0)
        ([1] ++ 2 :: [3]) 5).2.listen_threads, lt.threadRunning = true)) :=
  ⟨⟨by decide, by decide⟩,
    start_vector_partial_failure (· != 2) 2 true 0 [1] 2 [3] 5
      (by decide) (by decide)⟩

/-- C3: starting a fresh server on a non-empty list of ports that all bind
(pool starting fine, any positive fuel) returns `true`; afterwards
`IsRunning()` is true and the acceptor list holds exactly one record per
listed port, appended in list order. -/
theorem start_vector_all_success (bindOK : Int → Bool) (tn : Nat) (rr : Bool)
    (ctr : Nat) (ports : List Int) (fuel : Nat)
    (hall : ∀ p ∈ ports, bindOK p = true) (hne : ports ≠ []) (hf : 1 ≤ fuel) :
    (StartVector bindOK true (freshServer tn rr ctr) ports fuel).1 = some true ∧
    IsRunning (StartVector bindOK true (freshServer tn rr ctr) ports fuel).2
      = true ∧
    (StartVector bindOK true (freshServer tn rr ctr)
        ports fuel).2.listen_threads.map (·.port) = ports := by
  obtain ⟨h1, h2, h3, h4⟩ := startPorts_all_ok bindOK
    { freshServer tn rr ctr with tpoolRunning := true } ports hall
  have h2' : (startPorts bindOK
      { freshServer tn rr ctr with tpoolRunning := true }
      ports).2.listen_threads.map (·.port) = ports := by
    simpa [freshServer] using h2
  have hner : (startPorts bindOK
      { freshServer tn rr ctr with tpoolRunning := true }
      ports).2.listen_threads ≠ [] := by
    intro hnil
    apply hne
    rw [hnil] at h2'
    exact h2'.symm
  have htp : (startPorts bindOK
      { freshServer tn rr ctr with tpoolRunning := true }
      ports).2.tpoolRunning = true := by
    rw [h3]
  have hrun : IsRunning (startPorts bindOK
      { freshServer tn rr ctr with tpoolRunning := true } ports).2 = true := by
    simp only [IsRunning, List.isEmpty_iff, htp, Bool.not_true, if_neg hner,
      Bool.false_eq_true, if_false, List.all_eq_true]
    intro lt hlt
    rcases h4 lt hlt with hmem | hr
    · simp [freshServer] at hmem
    · exact hr
  have hpoll := pollIsRunning_of_isRunning _ hrun fuel hf
  have hred : StartVector bindOK true (freshServer tn rr ctr) ports fuel
      = (some true,
          (startPorts bindOK { freshServer tn rr ctr with tpoolRunning := true }
            ports).2) := by
    simp [StartVector, h1, hpoll]
  rw [hred]
  exact ⟨rfl, hrun, h2'⟩

/-- Witness for C3: starting `[80, 81]` with every bind succeeding returns
`some true`, leaves the server running, and records both ports in order. -/
theorem start_vector_all_success_witness :
    ((∀ p ∈ ([80, 81] : List Int), (fun _ : Int => true) p = true) ∧
      ([80, 81] : List Int) ≠ [] ∧ 1 ≤ 1) ∧
    ((StartVector (fun _ => true) true (freshServer 2 true 0) [80, 81] 1).1
        = some true ∧
     IsRunning (StartVector (fun _ => true) true (freshServer 2 true 0)
        [80, 81] 1).2 = true ∧
     (StartVector (fun _ => true) true (freshServer 2 true 0)
        [80, 81] 1).2.listen_threads.map (·.port) = [80, 81]) :=
  ⟨⟨by decide, by decide, by decide⟩,
    start_vector_all_success (fun _ => true) 2 true 0 [80, 81] 1
      (by decide) (by decide) (by decide)⟩

/-- C10: calling `Start` with an empty port list on a fresh server (pool
starting fine) never returns: there is no listener to append, the acceptor
list stays empty, so `IsRunning()` stays false and the poll never exits, for
every fuel bound. -/
theorem start_empty_ports_hangs (bindOK : Int → Bool) (tn : Nat) (rr : Bool)
    (ctr : Nat) (fuel : Nat) :
    (StartVector bindOK true (freshServer tn rr ctr) [] fuel).1 = none ∧
    (StartVector bindOK true (freshServer tn rr ctr)
        [] fuel).2.listen_threads = [] := by
  constructor <;>
    simp [StartVector, startPorts, pollIsRunning_of_not_running, IsRunning,
      freshServer]

end Evpp
